import Mathlib

/-!
Verification of the TSP optimizer demos (`TravelingSalesman.py`,
`ParticleSwarmOptimization_TSP.py`) and the subset-sum solver
(`subset_sum.py`) of the Biomimicry_Project_1 repository.

The Python code is shallowly embedded: city coordinates and all float
arithmetic are modelled over exact rationals, and the float `math.hypot`
primitive is abstracted as a parameter `hyp : ℚ → ℚ → ℚ`; all the
properties proved here are independent of the numeric values `hyp`
returns (symmetry of `hyp` is taken as an explicit hypothesis where a
claim needs it).  Randomness (`random.shuffle`, `random.random`,
`random.sample`, `random.choice`, `random.uniform`) is modelled by
explicit oracle parameters, so every theorem quantifies over all
possible random draws.
-/

namespace Biomimicry

/-- Distance between the cities at indices `a` and `b` of `cities`, as the
Python code computes it: `math.hypot(city_a.x - city_b.x, city_a.y - city_b.y)`
with out-of-range accesses defaulted (they never occur for valid tours). -/
def dcity (hyp : ℚ → ℚ → ℚ) (cities : List (ℚ × ℚ)) (a b : Nat) : ℚ :=
  hyp ((cities.getD a (0, 0)).1 - (cities.getD b (0, 0)).1)
    ((cities.getD a (0, 0)).2 - (cities.getD b (0, 0)).2)

/-- `calculate_tour_distance` (`TravelingSalesman.py` lines 120-128 and the
identical `ParticleSwarmOptimization_TSP.py` lines 125-133): accumulate, over
`i in range(len(tour))`, the distance from `cities[tour[i]]` to
`cities[tour[(i + 1) % len(tour)]]`, starting from `total_distance = 0`. -/
def calculate_tour_distance (hyp : ℚ → ℚ → ℚ) (cities : List (ℚ × ℚ))
    (tour : List Nat) : ℚ :=
  (List.range tour.length).foldl
    (fun total_distance i =>
      total_distance +
        dcity hyp cities (tour.getD i 0) (tour.getD ((i + 1) % tour.length) 0))
    0

/-- Modelled from the spec: "the sum of the n Euclidean distances between
consecutive cities in T, including the wrap-around edge from the last city
back to the first" — a big-operator sum over the `tour.length` consecutive
pairs, the last pair wrapping via the `% tour.length` index. -/
def tourLengthSpec (hyp : ℚ → ℚ → ℚ) (cities : List (ℚ × ℚ))
    (tour : List Nat) : ℚ :=
  ∑ i ∈ Finset.range tour.length,
    dcity hyp cities (tour.getD i 0) (tour.getD ((i + 1) % tour.length) 0)

theorem foldl_add_range (g : Nat → ℚ) :
    ∀ (m : Nat) (c : ℚ),
      (List.range m).foldl (fun a i => a + g i) c = c + ∑ i ∈ Finset.range m, g i := by
  intro m
  induction m with
  | zero => intro c; simp
  | succ k ih =>
      intro c
      rw [List.range_succ, List.foldl_append, ih, Finset.sum_range_succ]
      simp [add_assoc]

theorem calculate_tour_distance_eq_spec (hyp : ℚ → ℚ → ℚ)
    (cities : List (ℚ × ℚ)) (tour : List Nat) :
    calculate_tour_distance hyp cities tour = tourLengthSpec hyp cities tour := by
  unfold calculate_tour_distance tourLengthSpec
  rw [foldl_add_range]
  simp

/-- Claim C1: for every tour that is a permutation of the `n` city indices
(`n ≥ 1`), `calculate_tour_distance` returns exactly the sum of the `n`
distances between consecutive cities of the tour, including the wrap-around
edge from the last city back to the first (the summand at `i = n - 1` pairs
`tour[n-1]` with `tour[0]`). -/
theorem calculate_tour_distance_sums_consecutive_pairs
    (hyp : ℚ → ℚ → ℚ) (cities : List (ℚ × ℚ)) (tour : List Nat)
    (hn : 1 ≤ cities.length)
    (hperm : tour.Perm (List.range cities.length)) :
    tour.length = cities.length ∧
      calculate_tour_distance hyp cities tour =
        ∑ i ∈ Finset.range cities.length,
          dcity hyp cities (tour.getD i 0)
            (tour.getD ((i + 1) % cities.length) 0) := by
  have hlen : tour.length = cities.length := by
    simpa using hperm.length_eq
  refine ⟨hlen, ?_⟩
  rw [calculate_tour_distance_eq_spec]
  unfold tourLengthSpec
  rw [hlen]

theorem calculate_tour_distance_sums_consecutive_pairs_witness :
    [1, 0].length = [((0 : ℚ), (0 : ℚ)), (3, 4)].length ∧
      calculate_tour_distance (fun a b => a * a + b * b)
          [((0 : ℚ), (0 : ℚ)), (3, 4)] [1, 0] =
        ∑ i ∈ Finset.range [((0 : ℚ), (0 : ℚ)), (3, 4)].length,
          dcity (fun a b => a * a + b * b) [((0 : ℚ), (0 : ℚ)), (3, 4)]
            ([1, 0].getD i 0)
            ([1, 0].getD ((i + 1) % [((0 : ℚ), (0 : ℚ)), (3, 4)].length) 0) :=
  calculate_tour_distance_sums_consecutive_pairs
    (fun a b => a * a + b * b) [((0 : ℚ), (0 : ℚ)), (3, 4)] [1, 0]
    (by decide) (by decide)

/-! ## 2-opt optimizer (`TravelingSalesman.py` lines 112-159) -/

/-- `swap_two_opt` (`TravelingSalesman.py` lines 130-133):
`tour[:i] + tour[i:k + 1][::-1] + tour[k + 1:]`. -/
def swap_two_opt (tour : List Nat) (i k : Nat) : List Nat :=
  tour.take i ++ ((tour.drop i).take (k + 1 - i)).reverse ++ tour.drop (k + 1)

/-- The mutable attributes used by the 2-opt stepper: `self.tour`,
`self.best_distance`, `self.iteration_i`, `self.iteration_k`. -/
structure TwoOptState where
  tour : List Nat
  best_distance : ℚ
  iteration_i : Nat
  iteration_k : Nat
deriving DecidableEq

/-- `initialize_tour` (`TravelingSalesman.py` lines 112-118); the result of
`random.shuffle` is passed in as the `shuffled` oracle argument. -/
def initialize_tour (hyp : ℚ → ℚ → ℚ) (cities : List (ℚ × ℚ))
    (shuffled : List Nat) : TwoOptState :=
  { tour := shuffled
    best_distance := calculate_tour_distance hyp cities shuffled
    iteration_i := 1
    iteration_k := 2 }

/-- The guard `self.iteration_i >= len(self.tour) - 1` that makes
`perform_two_opt_optimization` report completion and return without doing any
work (for `len(tour) = 0` Python compares against `-1`, which truncated `Nat`
subtraction also reports as terminal). -/
def twoOptTerminal (s : TwoOptState) : Bool :=
  decide (s.tour.length - 1 ≤ s.iteration_i)

/-- One invocation of `perform_two_opt_optimization`
(`TravelingSalesman.py` lines 135-159), without the self-rescheduling
`self.after(1, ...)` call: returns the updated state together with the number
of candidate tours built and evaluated during the call (`0` on the terminal
early return, `1` otherwise). -/
def perform_two_opt_optimization (hyp : ℚ → ℚ → ℚ) (cities : List (ℚ × ℚ))
    (s : TwoOptState) : TwoOptState × Nat :=
  if s.tour.length - 1 ≤ s.iteration_i then
    (s, 0)
  else
    let i := s.iteration_i
    let k := s.iteration_k
    let new_tour := swap_two_opt s.tour i k
    let new_distance := calculate_tour_distance hyp cities new_tour
    if new_distance < s.best_distance then
      ({ tour := new_tour, best_distance := new_distance,
         iteration_i := 1, iteration_k := 2 }, 1)
    else
      if s.tour.length ≤ k + 1 then
        ({ s with iteration_i := i + 1, iteration_k := i + 2 }, 1)
      else
        ({ s with iteration_k := k + 1 }, 1)

/-- Repeated invocations of the 2-opt stepper (the host re-invoking
`perform_two_opt_optimization` via `self.after`). -/
def twoOptIterate (hyp : ℚ → ℚ → ℚ) (cities : List (ℚ × ℚ)) :
    Nat → TwoOptState → TwoOptState
  | 0, s => s
  | m + 1, s => twoOptIterate hyp cities m (perform_two_opt_optimization hyp cities s).1

theorem two_opt_step_best_le (hyp : ℚ → ℚ → ℚ) (cities : List (ℚ × ℚ))
    (s : TwoOptState) :
    (perform_two_opt_optimization hyp cities s).1.best_distance = s.best_distance ∨
      (perform_two_opt_optimization hyp cities s).1.best_distance < s.best_distance := by
  unfold perform_two_opt_optimization
  dsimp only
  split
  · left; rfl
  · split
    · right; assumption
    · split
      · left; rfl
      · left; rfl

theorem two_opt_iterate_best_le (hyp : ℚ → ℚ → ℚ) (cities : List (ℚ × ℚ)) :
    ∀ (m : Nat) (s : TwoOptState),
      (twoOptIterate hyp cities m s).best_distance ≤ s.best_distance := by
  intro m
  induction m with
  | zero => intro s; exact le_refl _
  | succ p ih =>
      intro s
      refine le_trans (ih _) ?_
      rcases two_opt_step_best_le hyp cities s with h | h
      · exact le_of_eq h
      · exact le_of_lt h

/-- Claim C4: each invocation of the 2-opt step either leaves `best_distance`
unchanged or strictly decreases it, and consequently `best_distance` is
non-increasing across any sequence of step invocations, for every distance
function, every city list and every starting state. -/
theorem two_opt_best_distance_non_increasing (hyp : ℚ → ℚ → ℚ)
    (cities : List (ℚ × ℚ)) (s : TwoOptState) (m : Nat) :
    ((perform_two_opt_optimization hyp cities s).1.best_distance = s.best_distance ∨
      (perform_two_opt_optimization hyp cities s).1.best_distance < s.best_distance) ∧
      (twoOptIterate hyp cities m s).best_distance ≤ s.best_distance :=
  ⟨two_opt_step_best_le hyp cities s, two_opt_iterate_best_le hyp cities m s⟩

theorem dcity_symm (hyp : ℚ → ℚ → ℚ) (cities : List (ℚ × ℚ))
    (hsym : ∀ x y, hyp (-x) (-y) = hyp x y) (a b : Nat) :
    dcity hyp cities a b = dcity hyp cities b a := by
  unfold dcity
  rw [show (cities.getD a (0, 0)).1 - (cities.getD b (0, 0)).1 =
        -((cities.getD b (0, 0)).1 - (cities.getD a (0, 0)).1) by ring,
      show (cities.getD a (0, 0)).2 - (cities.getD b (0, 0)).2 =
        -((cities.getD b (0, 0)).2 - (cities.getD a (0, 0)).2) by ring,
      hsym]

theorem tour3_distance_reverse_eq (hyp : ℚ → ℚ → ℚ) (cities : List (ℚ × ℚ))
    (hsym : ∀ x y, hyp (-x) (-y) = hyp x y) (a b c : Nat) :
    calculate_tour_distance hyp cities [a, c, b] =
      calculate_tour_distance hyp cities [a, b, c] := by
  have h1 : calculate_tour_distance hyp cities [a, c, b] =
      dcity hyp cities a c + dcity hyp cities c b + dcity hyp cities b a := by
    simp [calculate_tour_distance, List.range_succ]
  have h2 : calculate_tour_distance hyp cities [a, b, c] =
      dcity hyp cities a b + dcity hyp cities b c + dcity hyp cities c a := by
    simp [calculate_tour_distance, List.range_succ]
  rw [h1, h2, dcity_symm hyp cities hsym a c, dcity_symm hyp cities hsym c b,
    dcity_symm hyp cities hsym b a]
  ring

/-- Counterexample to claim C8: for the 3-city graph `(0,0), (1,0), (0,1)`
and initial tour `[0, 1, 2]`, the very first invocation of
`perform_two_opt_optimization` after `initialize_tour` does not report
completion (the guard `iteration_i >= len(tour) - 1` is `1 >= 2`, false) and
it builds and evaluates one candidate tour. -/
theorem two_opt_n3_first_step_not_terminal :
    twoOptTerminal
        (initialize_tour (fun x y => x * x + y * y)
          [((0 : ℚ), (0 : ℚ)), (1, 0), (0, 1)] [0, 1, 2]) = false ∧
      (perform_two_opt_optimization (fun x y => x * x + y * y)
          [((0 : ℚ), (0 : ℚ)), (1, 0), (0, 1)]
          (initialize_tour (fun x y => x * x + y * y)
            [((0 : ℚ), (0 : ℚ)), (1, 0), (0, 1)] [0, 1, 2])).2 = 1 := by
  refine ⟨rfl, ?_⟩
  unfold perform_two_opt_optimization initialize_tour
  dsimp only
  rw [if_neg (by decide)]
  split
  · rfl
  · split <;> rfl

/-- Claim C8 (amended): the terminal guard is `iteration_i >= n - 1` with
`iteration_i` initialized to `1`, so the first step after initialization
reports completion, with no candidate evaluation, exactly when `n ≤ 2`.
For `n = 3` (with a symmetric distance primitive) the first step is not
terminal: it evaluates one candidate, which — reversing a segment of a
3-cycle — has exactly the original length and is thus never accepted, so the
cursors advance to `i = 2, k = 3` with tour and best distance unchanged, and
the second step reports completion; no error occurs in either case. -/
theorem two_opt_small_graph_behavior (hyp : ℚ → ℚ → ℚ) (cities : List (ℚ × ℚ))
    (hsym : ∀ x y, hyp (-x) (-y) = hyp x y) :
    (∀ shuffled : List Nat, shuffled.length ≤ 2 →
        twoOptTerminal (initialize_tour hyp cities shuffled) = true ∧
        (perform_two_opt_optimization hyp cities
            (initialize_tour hyp cities shuffled)).2 = 0 ∧
        (perform_two_opt_optimization hyp cities
            (initialize_tour hyp cities shuffled)).1 =
          initialize_tour hyp cities shuffled) ∧
    (∀ a b c : Nat,
        twoOptTerminal (initialize_tour hyp cities [a, b, c]) = false ∧
        (perform_two_opt_optimization hyp cities
            (initialize_tour hyp cities [a, b, c])).2 = 1 ∧
        (perform_two_opt_optimization hyp cities
            (initialize_tour hyp cities [a, b, c])).1 =
          { initialize_tour hyp cities [a, b, c] with
              iteration_i := 2, iteration_k := 3 } ∧
        twoOptTerminal
          (perform_two_opt_optimization hyp cities
            (initialize_tour hyp cities [a, b, c])).1 = true) := by
  constructor
  · intro shuffled hlen
    have hterm : shuffled.length - 1 ≤ 1 := by omega
    refine ⟨?_, ?_, ?_⟩
    · simp [twoOptTerminal, initialize_tour, hterm]
    · simp [perform_two_opt_optimization, initialize_tour, hterm]
    · simp [perform_two_opt_optimization, initialize_tour, hterm]
  · intro a b c
    have hswap : swap_two_opt [a, b, c] 1 2 = [a, c, b] := rfl
    have hnotlt : ¬ (calculate_tour_distance hyp cities [a, c, b] <
        calculate_tour_distance hyp cities [a, b, c]) := by
      rw [tour3_distance_reverse_eq hyp cities hsym a b c]
      exact lt_irrefl _
    refine ⟨rfl, ?_, ?_, ?_⟩ <;>
      simp [twoOptTerminal, perform_two_opt_optimization, initialize_tour,
        hswap, hnotlt]

theorem two_opt_small_graph_behavior_witness :
    twoOptTerminal
        (initialize_tour (fun x y => x * x + y * y) [((0 : ℚ), (0 : ℚ))] [0]) =
          true ∧
      twoOptTerminal
        (initialize_tour (fun x y => x * x + y * y)
          [((0 : ℚ), (0 : ℚ)), (1, 0), (0, 1)] [0, 1, 2]) = false :=
  ⟨((two_opt_small_graph_behavior (fun x y => x * x + y * y)
        [((0 : ℚ), (0 : ℚ))] (fun x y => by ring)).1 [0] (by decide)).1,
    ((two_opt_small_graph_behavior (fun x y => x * x + y * y)
        [((0 : ℚ), (0 : ℚ)), (1, 0), (0, 1)] (fun x y => by ring)).2 0 1 2).1⟩

/-! ## Order crossover (`TravelingSalesman.py` lines 260-282) -/

/-- One placement of `fill_remaining_genes`: the Python pointer advances past
filled slots (slots before it are never `None`) and writes `gene` into the
first empty slot.  On a list with no empty slot Python would raise; this
total model returns the list unchanged, a case the proofs show unreachable. -/
def placeFirstNone : List (Option Nat) → Nat → List (Option Nat)
  | [], _ => []
  | none :: rest, g => some g :: rest
  | some x :: rest, g => some x :: placeFirstNone rest g

/-- `fill_remaining_genes(child, parent)` (`TravelingSalesman.py` lines
275-282): for each gene of `parent`, in order, that is not yet in `child`
(`gene not in child`), write it into the first empty slot. -/
def fill_remaining_genes (child : List (Option Nat)) (parent : List Nat) :
    List (Option Nat) :=
  parent.foldl (fun c g => if some g ∈ c then c else placeFirstNone c g) child

/-- `child = [None] * size` followed by the slice assignment
`child[start:end + 1] = parent[start:end + 1]` (`TravelingSalesman.py`
lines 265-266), for an in-range crossover window `start ≤ end < size`. -/
def init_child (parent : List Nat) (s e : Nat) : List (Option Nat) :=
  List.replicate s none ++ ((parent.drop s).take (e + 1 - s)).map some ++
    List.replicate (parent.length - (e + 1)) none

/-- `order_crossover(parent1, parent2)` (`TravelingSalesman.py` lines
260-273), with the window `start, end = sorted(random.sample(range(size), 2))`
passed in as `s`, `e`. -/
def order_crossover (parent1 parent2 : List Nat) (s e : Nat) :
    List (Option Nat) × List (Option Nat) :=
  (fill_remaining_genes (init_child parent1 s e) parent2,
   fill_remaining_genes (init_child parent2 s e) parent1)

/-- Number of still-empty (`None`) slots of a child. -/
def noneCount (c : List (Option Nat)) : Nat := c.countP (fun o => o.isNone)

/-- A completely built child: `n` slots, all filled, holding every city index
in `0..n-1` exactly once. -/
def isValidChild (n : Nat) (c : List (Option Nat)) : Prop :=
  c.length = n ∧ (∀ o ∈ c, o.isSome) ∧ (c.filterMap id).Perm (List.range n)

theorem placeFirstNone_length (c : List (Option Nat)) (g : Nat) :
    (placeFirstNone c g).length = c.length := by
  induction c with
  | nil => rfl
  | cons o rest ih => cases o <;> simp [placeFirstNone, ih]

theorem mem_filterMap_id (c : List (Option Nat)) (a : Nat) :
    a ∈ c.filterMap id ↔ some a ∈ c := by
  simp [List.mem_filterMap]

theorem placeFirstNone_filterMap (c : List (Option Nat)) (g : Nat)
    (h : none ∈ c) :
    ((placeFirstNone c g).filterMap id).Perm (g :: c.filterMap id) := by
  induction c with
  | nil => simp at h
  | cons o rest ih =>
      cases o with
      | none => simp [placeFirstNone]
      | some x =>
          have hr : none ∈ rest := by simpa using h
          have step := (ih hr).cons x
          refine step.trans ?_
          exact List.Perm.swap g x _

theorem placeFirstNone_noneCount (c : List (Option Nat)) (g : Nat)
    (h : none ∈ c) :
    noneCount c = noneCount (placeFirstNone c g) + 1 := by
  induction c with
  | nil => simp at h
  | cons o rest ih =>
      cases o with
      | none => simp [placeFirstNone, noneCount, List.countP_cons]
      | some x =>
          have hr : none ∈ rest := by simpa using h
          have := ih hr
          simp only [placeFirstNone, noneCount, List.countP_cons] at *
          simp at *
          omega

theorem none_mem_of_noneCount_pos (c : List (Option Nat))
    (h : 0 < noneCount c) : none ∈ c := by
  unfold noneCount at h
  rcases List.countP_pos_iff.mp h with ⟨o, ho, hno⟩
  cases o with
  | none => exact ho
  | some x => simp at hno

theorem fill_remaining_spec :
    ∀ (gs : List Nat) (c : List (Option Nat)), gs.Nodup →
      (gs.filter (fun g => !decide (some g ∈ c))).length ≤ noneCount c →
      (fill_remaining_genes c gs).length = c.length ∧
      noneCount (fill_remaining_genes c gs) +
          (gs.filter (fun g => !decide (some g ∈ c))).length = noneCount c ∧
      ((fill_remaining_genes c gs).filterMap id).Perm
        (c.filterMap id ++ gs.filter (fun g => !decide (some g ∈ c))) := by
  intro gs
  induction gs with
  | nil =>
      intro c _ _
      refine ⟨rfl, by simp [fill_remaining_genes], by simp [fill_remaining_genes]⟩
  | cons g rest ih =>
      intro c hnd hcnt
      rcases List.nodup_cons.mp hnd with ⟨hg, hndr⟩
      by_cases hmem : some g ∈ c
      · have hfe : (g :: rest).filter (fun x => !decide (some x ∈ c)) =
            rest.filter (fun x => !decide (some x ∈ c)) := by
          simp [List.filter_cons, hmem]
        have hfold : fill_remaining_genes c (g :: rest) =
            fill_remaining_genes c rest := by
          simp [fill_remaining_genes, List.foldl_cons, hmem]
        rw [hfe] at hcnt
        rcases ih c hndr hcnt with ⟨h1, h2, h3⟩
        rw [hfold, hfe]
        exact ⟨h1, h2, h3⟩
      · have hfe : (g :: rest).filter (fun x => !decide (some x ∈ c)) =
            g :: rest.filter (fun x => !decide (some x ∈ c)) := by
          simp [List.filter_cons, hmem]
        rw [hfe] at hcnt
        have hpos : 0 < noneCount c := by
          simp at hcnt
          omega
        have hnmem : none ∈ c := none_mem_of_noneCount_pos c hpos
        have hlen' := placeFirstNone_length c g
        have hcount' := placeFirstNone_noneCount c g hnmem
        have hfm' := placeFirstNone_filterMap c g hnmem
        have hfold : fill_remaining_genes c (g :: rest) =
            fill_remaining_genes (placeFirstNone c g) rest := by
          simp [fill_remaining_genes, List.foldl_cons, hmem]
        have hfiltereq : rest.filter (fun x => !decide (some x ∈ placeFirstNone c g)) =
            rest.filter (fun x => !decide (some x ∈ c)) := by
          apply List.filter_congr
          intro r hr
          have hne : r ≠ g := fun h => hg (h ▸ hr)
          have hiff : some r ∈ placeFirstNone c g ↔ some r ∈ c := by
            rw [← mem_filterMap_id, ← mem_filterMap_id]
            rw [hfm'.mem_iff]
            simp [hne]
          simp [hiff]
        have hcnt' : (rest.filter (fun x => !decide (some x ∈ placeFirstNone c g))).length ≤
            noneCount (placeFirstNone c g) := by
          rw [hfiltereq]
          simp at hcnt
          omega
        rcases ih (placeFirstNone c g) hndr hcnt' with ⟨h1, h2, h3⟩
        rw [hfiltereq] at h2 h3
        refine ⟨by rw [hfold, h1, hlen'], ?_, ?_⟩
        · rw [hfold, hfe]
          simp only [List.length_cons]
          omega
        · rw [hfold, hfe]
          refine h3.trans ?_
          have hmid : (c.filterMap id ++
              g :: rest.filter (fun x => !decide (some x ∈ c))).Perm
              (g :: (c.filterMap id ++
                rest.filter (fun x => !decide (some x ∈ c)))) :=
            List.perm_middle
          refine (List.Perm.append hfm' (List.Perm.refl _)).trans hmid.symm

theorem filterMap_id_replicate_none (m : Nat) :
    (List.replicate m (none : Option Nat)).filterMap id = [] := by
  induction m with
  | zero => rfl
  | succ k ih => simp [List.replicate_succ, ih]

theorem init_child_length (p : List Nat) (s e : Nat) (hs : s ≤ e)
    (he : e < p.length) :
    (init_child p s e).length = p.length := by
  unfold init_child
  simp
  omega

theorem init_child_filterMap (p : List Nat) (s e : Nat) :
    (init_child p s e).filterMap id = (p.drop s).take (e + 1 - s) := by
  unfold init_child
  rw [List.filterMap_append, List.filterMap_append,
    filterMap_id_replicate_none, filterMap_id_replicate_none,
    List.filterMap_map]
  simp [Function.comp_def, List.filterMap_some]

theorem noneCount_add_filterMap (c : List (Option Nat)) :
    noneCount c + (c.filterMap id).length = c.length := by
  induction c with
  | nil => rfl
  | cons o rest ih =>
      cases o with
      | none =>
          have hfm : (none :: rest).filterMap id = rest.filterMap id := by simp
          simp only [noneCount, List.countP_cons, List.length_cons, hfm] at *
          simp
          omega
      | some x =>
          have hfm : (some x :: rest).filterMap id = x :: rest.filterMap id := by
            simp
          simp only [noneCount, List.countP_cons, List.length_cons, hfm] at *
          simp
          omega

theorem init_child_noneCount (p : List Nat) (s e : Nat) (hs : s ≤ e)
    (he : e < p.length) :
    noneCount (init_child p s e) + (e + 1 - s) = p.length := by
  have h := noneCount_add_filterMap (init_child p s e)
  rw [init_child_filterMap, init_child_length p s e hs he] at h
  have hlen : ((p.drop s).take (e + 1 - s)).length = e + 1 - s := by
    rw [List.length_take, List.length_drop]
    omega
  rw [hlen] at h
  omega

theorem mem_init_child (p : List Nat) (s e : Nat) (g : Nat) :
    some g ∈ init_child p s e ↔ g ∈ (p.drop s).take (e + 1 - s) := by
  rw [← mem_filterMap_id, init_child_filterMap]

theorem filter_mem_range_perm (slice : List Nat) (n : Nat)
    (hnd : slice.Nodup) (hsub : ∀ x ∈ slice, x < n) :
    ((List.range n).filter (fun g => decide (g ∈ slice))).Perm slice := by
  refine (List.perm_ext_iff_of_nodup
    (List.Nodup.filter _ (List.nodup_range n)) hnd).mpr ?_
  intro a
  simp only [List.mem_filter, List.mem_range, decide_eq_true_eq]
  exact ⟨fun h => h.2, fun h => ⟨hsub a h, h⟩⟩

theorem filter_not_mem_slice_length (p2 slice : List Nat) (n : Nat)
    (h2 : p2.Perm (List.range n)) (hnd : slice.Nodup)
    (hsub : ∀ x ∈ slice, x < n) :
    (p2.filter (fun g => !decide (g ∈ slice))).length + slice.length = n := by
  have hmemlen : ((List.range n).filter (fun g => decide (g ∈ slice))).length =
      slice.length := (filter_mem_range_perm slice n hnd hsub).length_eq
  have hcount := List.length_eq_countP_add_countP
    (fun g => decide (g ∈ slice)) (List.range n)
  have hpredeq : (fun a => decide (¬ decide (a ∈ slice) = true)) =
      (fun a : Nat => !decide (a ∈ slice)) := by
    funext a
    by_cases h : a ∈ slice <;> simp [h]
  rw [hpredeq] at hcount
  have hp2 : (p2.filter (fun g => !decide (g ∈ slice))).length =
      ((List.range n).filter (fun g => !decide (g ∈ slice))).length := by
    rw [← List.countP_eq_length_filter, ← List.countP_eq_length_filter]
    exact h2.countP_eq _
  rw [hp2, ← List.countP_eq_length_filter, ← hmemlen,
    ← List.countP_eq_length_filter]
  have := List.length_range n
  omega

theorem fill_child_valid (n : Nat) (p1 p2 : List Nat) (s e : Nat)
    (h1 : p1.Perm (List.range n)) (h2 : p2.Perm (List.range n))
    (hs : s ≤ e) (he : e < n) :
    isValidChild n (fill_remaining_genes (init_child p1 s e) p2) := by
  have hp1len : p1.length = n := by simpa using h1.length_eq
  have hp2nd : p2.Nodup := h2.symm.nodup (List.nodup_range n)
  have hp1nd : p1.Nodup := h1.symm.nodup (List.nodup_range n)
  have hslice : ((p1.drop s).take (e + 1 - s)).Sublist p1 :=
    (List.take_sublist _ _).trans (List.drop_sublist _ _)
  have hslicend : ((p1.drop s).take (e + 1 - s)).Nodup := hslice.nodup hp1nd
  have hslicesub : ∀ x ∈ (p1.drop s).take (e + 1 - s), x < n := by
    intro x hx
    have : x ∈ p1 := hslice.subset hx
    simpa using h1.subset this
  have hel : e < p1.length := by omega
  have hfiltereq : p2.filter (fun g => !decide (some g ∈ init_child p1 s e)) =
      p2.filter (fun g => !decide (g ∈ (p1.drop s).take (e + 1 - s))) := by
    apply List.filter_congr
    intro g _
    simp [mem_init_child]
  have hflen : (p2.filter (fun g =>
      !decide (g ∈ (p1.drop s).take (e + 1 - s)))).length +
      ((p1.drop s).take (e + 1 - s)).length = n :=
    filter_not_mem_slice_length p2 _ n h2 hslicend hslicesub
  have hslicelen : ((p1.drop s).take (e + 1 - s)).length = e + 1 - s := by
    simp
    omega
  have hnc := init_child_noneCount p1 s e hs hel
  have hcnt : (p2.filter (fun g =>
      !decide (some g ∈ init_child p1 s e))).length ≤
      noneCount (init_child p1 s e) := by
    rw [hfiltereq]
    omega
  rcases fill_remaining_spec p2 (init_child p1 s e) hp2nd hcnt with ⟨hl, hc, hf⟩
  rw [hfiltereq] at hc
  refine ⟨?_, ?_, ?_⟩
  · rw [hl, init_child_length p1 s e hs hel, hp1len]
  · have hzero : noneCount (fill_remaining_genes (init_child p1 s e) p2) = 0 := by
      omega
    intro o ho
    have hnotnone := List.countP_eq_zero.mp hzero o ho
    cases o with
    | none => simp at hnotnone
    | some x => rfl
  · rw [hfiltereq, init_child_filterMap] at hf
    refine hf.trans ?_
    have hndapp : ((p1.drop s).take (e + 1 - s) ++
        p2.filter (fun g => !decide (g ∈ (p1.drop s).take (e + 1 - s)))).Nodup := by
      rw [List.nodup_append]
      refine ⟨hslicend, List.Nodup.filter _ hp2nd, ?_⟩
      intro a ha hafilter
      rcases List.mem_filter.mp hafilter with ⟨_, hdec⟩
      simp at hdec
      exact hdec ha
    refine (List.perm_ext_iff_of_nodup hndapp (List.nodup_range n)).mpr ?_
    intro a
    constructor
    · intro ha
      rcases List.mem_append.mp ha with ha | ha
      · exact List.mem_range.mpr (hslicesub a ha)
      · exact h2.subset (List.mem_filter.mp ha).1
    · intro ha
      by_cases hmem : a ∈ (p1.drop s).take (e + 1 - s)
      · exact List.mem_append.mpr (Or.inl hmem)
      · refine List.mem_append.mpr (Or.inr ?_)
        refine List.mem_filter.mpr ⟨h2.symm.subset ha, by simp [hmem]⟩

/-- Claim C2: for all parents that are permutations of `0..n-1` (`n ≥ 2`) and
every crossover window `start ≤ end < n`, both children built by
`order_crossover` are valid permutations of `0..n-1`: `n` slots, all filled,
no index duplicated and none missing. -/
theorem order_crossover_children_valid (n : Nat) (p1 p2 : List Nat) (s e : Nat)
    (hn : 2 ≤ n) (h1 : p1.Perm (List.range n)) (h2 : p2.Perm (List.range n))
    (hs : s ≤ e) (he : e < n) :
    isValidChild n (order_crossover p1 p2 s e).1 ∧
      isValidChild n (order_crossover p1 p2 s e).2 :=
  ⟨fill_child_valid n p1 p2 s e h1 h2 hs he,
    fill_child_valid n p2 p1 s e h2 h1 hs he⟩

theorem order_crossover_children_valid_witness :
    isValidChild 3 (order_crossover [2, 0, 1] [0, 2, 1] 0 1).1 ∧
      isValidChild 3 (order_crossover [2, 0, 1] [0, 2, 1] 0 1).2 :=
  order_crossover_children_valid 3 [2, 0, 1] [0, 2, 1] 0 1
    (by decide) (by decide) (by decide) (by decide) (by decide)

/-! ## Genetic algorithm (`TravelingSalesman.py` lines 175-289) -/

/-- The mutable attributes of the genetic-algorithm stepper. -/
structure GAState where
  population_size : Nat
  generations : Nat
  mutation_rate : ℚ
  population : List (List Nat)
  generation : Nat
  best_individual : Option (List Nat)
  best_distance : Option ℚ

/-- Comparison `distance < best_distance` where `best_distance` starts as
`float('inf')`, modelled as `none`: any finite value is below infinity. -/
def ltInf (d : ℚ) : Option ℚ → Bool
  | none => true
  | some b => decide (d < b)

/-- `create_initial_population` (lines 192-198): `P` shuffled copies of
`list(range(n))`; the results of `random.shuffle` are supplied by the
`shuffle` oracle. -/
def create_initial_population (n P : Nat)
    (shuffle : Nat → List Nat → List Nat) : List (List Nat) :=
  (List.range P).map (fun idx => shuffle idx (List.range n))

/-- `setup_genetic_algorithm` (lines 182-190): all parameters are hard-coded
constants — the function accepts no configuration and performs no
validation. -/
def setup_genetic_algorithm (n : Nat)
    (shuffle : Nat → List Nat → List Nat) : GAState :=
  { population_size := 100
    generations := 500
    mutation_rate := 1 / 100
    population := create_initial_population n 100 shuffle
    generation := 0
    best_individual := none
    best_distance := none }

/-- The body of `evaluate_population`'s loop (lines 217-226): append the pair
`(1 / distance, individual)` to the running fitness list and update
`best_distance` / `best_individual` on strict improvement. -/
def evaluate_step (hyp : ℚ → ℚ → ℚ) (cities : List (ℚ × ℚ))
    (acc : List (ℚ × List Nat) × Option ℚ × Option (List Nat))
    (ind : List Nat) : List (ℚ × List Nat) × Option ℚ × Option (List Nat) :=
  let distance := calculate_tour_distance hyp cities ind
  if ltInf distance acc.2.1 then
    (acc.1 ++ [(1 / distance, ind)], some distance, some ind)
  else
    (acc.1 ++ [(1 / distance, ind)], acc.2.1, acc.2.2)

/-- `evaluate_population` (lines 215-228): build `fitness_scores` as the pairs
`(1 / distance, individual)` in population order, updating `best_distance`
and `best_individual` whenever a strictly smaller distance is seen.  Returns
the fitness list and the updated bests. -/
def evaluate_population (hyp : ℚ → ℚ → ℚ) (cities : List (ℚ × ℚ))
    (pop : List (List Nat)) (bd : Option ℚ) (bi : Option (List Nat)) :
    List (ℚ × List Nat) × Option ℚ × Option (List Nat) :=
  pop.foldl (evaluate_step hyp cities) ([], bd, bi)

/-- Python list comparison (`<=`, lexicographic) on tours, used by `sorted`
to break ties between equal fitness scores. -/
def pyListLe : List Nat → List Nat → Bool
  | [], _ => true
  | _ :: _, [] => false
  | a :: as, b :: bs => if a < b then true else if b < a then false else pyListLe as bs

/-- Python tuple comparison on `(fitness, individual)` pairs. -/
def pyPairLe (x y : ℚ × List Nat) : Bool :=
  if x.1 < y.1 then true else if y.1 < x.1 then false else pyListLe x.2 y.2

/-- The running-total loop building `cumulative_probabilities`
(lines 235-239). -/
def cumulative : ℚ → List ℚ → List ℚ
  | _, [] => []
  | acc, p :: rest => (acc + p) :: cumulative (acc + p) rest

/-- `perform_selection` (lines 230-248): re-order the population by
descending `(fitness, individual)` (`sorted(..., reverse=True)`, a stable
sort), build the cumulative roulette-wheel probabilities from the unsorted
fitness list, then draw `P` times: draw `j` appends the first individual
whose cumulative probability is `>= rs j`, or nothing if no entry qualifies
(the inner `for`/`break` falls through). -/
def perform_selection (P : Nat) (fitness : List (ℚ × List Nat))
    (rs : Nat → ℚ) : List (List Nat) :=
  let population := (fitness.mergeSort (fun a b => pyPairLe b a)).map
    (fun f => f.2)
  let total_fitness := (fitness.map (fun f => f.1)).sum
  let cumulative_probabilities :=
    cumulative 0 (fitness.map (fun f => f.1 / total_fitness))
  (List.range P).foldl
    (fun new_population j =>
      match cumulative_probabilities.findIdx? (fun cp => decide (rs j ≤ cp)) with
      | some i => new_population ++ [population.getD i []]
      | none => new_population)
    []

/-- `perform_crossover` (lines 250-258): `for i in range(0, P, 2)` pairs
consecutive individuals (the odd tail pairing with `population[0]`) and
appends both order-crossover children of each pair; the random crossover
window of pair `j` is supplied by the `ranges` oracle.  Filled child slots
are extracted with a default that is never used for valid parents. -/
def perform_crossover (P : Nat) (pop : List (List Nat))
    (ranges : Nat → Nat × Nat) : List (List Nat) :=
  (List.range ((P + 1) / 2)).foldl
    (fun new_population j =>
      let i := 2 * j
      let parent1 := pop.getD i []
      let parent2 := if i + 1 < P then pop.getD (i + 1) [] else pop.getD 0 []
      let c := order_crossover parent1 parent2 (ranges j).1 (ranges j).2
      new_population ++
        [c.1.map (fun o => o.getD 0), c.2.map (fun o => o.getD 0)])
    []

/-- The in-place swap `individual[i], individual[j] =
individual[j], individual[i]`. -/
def swap_positions (l : List Nat) (i j : Nat) : List Nat :=
  (l.set i (l.getD j 0)).set j (l.getD i 0)

/-- `perform_mutation` (lines 284-289): for each individual the `muts` oracle
reports whether `random.random() < mutation_rate` fired and, if so, which two
positions `random.sample` chose to swap. -/
def perform_mutation (pop : List (List Nat))
    (muts : Nat → Option (Nat × Nat)) : List (List Nat) :=
  pop.mapIdx (fun idx ind =>
    match muts idx with
    | some ij => swap_positions ind ij.1 ij.2
    | none => ind)

/-- One invocation of `evolve_population` (lines 200-213), without the
self-rescheduling `self.after(1, ...)` call: on the terminal check
(`generation >= generations`) the state is returned unchanged; otherwise the
generation counter increments and one full generation (evaluate, select,
crossover, mutate) runs. -/
def evolve_population (hyp : ℚ → ℚ → ℚ) (cities : List (ℚ × ℚ))
    (rs : Nat → ℚ) (ranges : Nat → Nat × Nat) (muts : Nat → Option (Nat × Nat))
    (s : GAState) : GAState :=
  if s.generations ≤ s.generation then s
  else
    let ev := evaluate_population hyp cities s.population s.best_distance
      s.best_individual
    let selected := perform_selection s.population_size ev.1 rs
    let crossed := perform_crossover s.population_size selected ranges
    let mutated := perform_mutation crossed muts
    { s with
        generation := s.generation + 1
        population := mutated
        best_distance := ev.2.1
        best_individual := ev.2.2 }

theorem evaluate_foldl_fst (hyp : ℚ → ℚ → ℚ) (cities : List (ℚ × ℚ)) :
    ∀ (pop : List (List Nat))
      (acc : List (ℚ × List Nat) × Option ℚ × Option (List Nat)),
      (pop.foldl (evaluate_step hyp cities) acc).1 =
        acc.1 ++ pop.map
          (fun ind => (1 / calculate_tour_distance hyp cities ind, ind)) := by
  intro pop
  induction pop with
  | nil => intro acc; simp
  | cons ind rest ih =>
      intro acc
      rw [List.foldl_cons, ih]
      have hstep : (evaluate_step hyp cities acc ind).1 =
          acc.1 ++ [(1 / calculate_tour_distance hyp cities ind, ind)] := by
        unfold evaluate_step
        dsimp only
        split <;> rfl
      rw [hstep]
      simp

theorem evaluate_population_fitness (hyp : ℚ → ℚ → ℚ) (cities : List (ℚ × ℚ))
    (pop : List (List Nat)) (bd : Option ℚ) (bi : Option (List Nat)) :
    (evaluate_population hyp cities pop bd bi).1 =
      pop.map (fun ind => (1 / calculate_tour_distance hyp cities ind, ind)) := by
  unfold evaluate_population
  rw [evaluate_foldl_fst]
  simp

theorem cumulative_sum_mem :
    ∀ (l : List ℚ) (a : ℚ), l ≠ [] → a + l.sum ∈ cumulative a l := by
  intro l
  induction l with
  | nil => intro a h; exact absurd rfl h
  | cons p rest ih =>
      intro a _
      by_cases hr : rest = []
      · subst hr
        simp [cumulative]
      · have hmem := ih (a + p) hr
        rw [List.sum_cons, ← add_assoc]
        exact List.mem_cons_of_mem _ hmem

theorem sum_map_div (l : List (ℚ × List Nat)) (t : ℚ) :
    (l.map (fun f => f.1 / t)).sum = (l.map (fun f => f.1)).sum / t := by
  induction l with
  | nil => simp
  | cons x rest ih => simp [ih, add_div]

theorem selection_foldl_length (cum : List ℚ) (population : List (List Nat))
    (rs : Nat → ℚ)
    (hsome : ∀ j, (cum.findIdx? (fun cp => decide (rs j ≤ cp))).isSome) :
    ∀ (js : List Nat) (acc : List (List Nat)),
      (js.foldl
        (fun new_population j =>
          match cum.findIdx? (fun cp => decide (rs j ≤ cp)) with
          | some i => new_population ++ [population.getD i []]
          | none => new_population) acc).length = acc.length + js.length := by
  intro js
  induction js with
  | nil => intro acc; simp
  | cons j rest ih =>
      intro acc
      rw [List.foldl_cons]
      rcases Option.isSome_iff_exists.mp (hsome j) with ⟨i, hi⟩
      rw [hi]
      rw [ih]
      simp [Nat.add_assoc, Nat.add_comm 1 rest.length]

theorem perform_selection_length (P : Nat) (fitness : List (ℚ × List Nat))
    (rs : Nat → ℚ) (hne : fitness ≠ []) (hpos : ∀ f ∈ fitness, 0 < f.1)
    (hr : ∀ j, rs j ≤ 1) :
    (perform_selection P fitness rs).length = P := by
  unfold perform_selection
  dsimp only
  have htpos : 0 < (fitness.map (fun f => f.1)).sum := by
    apply List.sum_pos
    · intro x hx
      rcases List.mem_map.mp hx with ⟨f, hf, rfl⟩
      exact hpos f hf
    · simpa using hne
  have hone : (1 : ℚ) ∈ cumulative 0
      (fitness.map (fun f => f.1 / (fitness.map (fun f => f.1)).sum)) := by
    have hmem := cumulative_sum_mem
      (fitness.map (fun f => f.1 / (fitness.map (fun f => f.1)).sum)) 0
      (by simpa using hne)
    rw [sum_map_div, div_self (ne_of_gt htpos)] at hmem
    simpa using hmem
  have hsome : ∀ j, ((cumulative 0
      (fitness.map (fun f => f.1 / (fitness.map (fun f => f.1)).sum))).findIdx?
        (fun cp => decide (rs j ≤ cp))).isSome := by
    intro j
    rw [List.findIdx?_isSome, List.any_eq_true]
    exact ⟨1, hone, by simpa using hr j⟩
  rw [selection_foldl_length _ _ _ hsome]
  simp

theorem foldl_append_pairs_length (u v : Nat → List Nat) :
    ∀ (js : List Nat) (acc : List (List Nat)),
      (js.foldl (fun np j => np ++ [u j, v j]) acc).length =
        acc.length + 2 * js.length := by
  intro js
  induction js with
  | nil => intro acc; simp
  | cons j rest ih =>
      intro acc
      rw [List.foldl_cons, ih]
      simp
      omega

theorem perform_crossover_length (P : Nat) (pop : List (List Nat))
    (ranges : Nat → Nat × Nat) :
    (perform_crossover P pop ranges).length = 2 * ((P + 1) / 2) := by
  unfold perform_crossover
  dsimp only
  rw [foldl_append_pairs_length
    (fun j => ((order_crossover (pop.getD (2 * j) [])
      (if 2 * j + 1 < P then pop.getD (2 * j + 1) [] else pop.getD 0 [])
      (ranges j).1 (ranges j).2).1.map (fun o => o.getD 0)))
    (fun j => ((order_crossover (pop.getD (2 * j) [])
      (if 2 * j + 1 < P then pop.getD (2 * j + 1) [] else pop.getD 0 [])
      (ranges j).1 (ranges j).2).2.map (fun o => o.getD 0)))]
  simp

theorem perform_mutation_length (pop : List (List Nat))
    (muts : Nat → Option (Nat × Nat)) :
    (perform_mutation pop muts).length = pop.length := by
  unfold perform_mutation
  exact List.length_mapIdx

/-- Counterexample to claim C5: for an odd population size the crossover loop
`for i in range(0, population_size, 2)` runs `ceil(P / 2)` times and appends
two children each time, so one full `evolve_population` step over a
population of 3 tours (2 cities) yields a population of 4 tours, not 3. -/
theorem ga_step_population_size_not_fixed_for_odd_P :
    ¬ ((evolve_population (fun x y => x * x + y * y)
        [((0 : ℚ), (0 : ℚ)), (1, 0)] (fun _ => 0) (fun _ => (0, 0))
        (fun _ => none)
        { population_size := 3, generations := 500, mutation_rate := 1 / 100,
          population := [[0, 1], [1, 0], [0, 1]], generation := 0,
          best_individual := none, best_distance := none }).population.length
      = 3) := by
  intro h
  rw [evolve_population] at h
  rw [if_neg (by norm_num)] at h
  dsimp only at h
  rw [perform_mutation_length, perform_crossover_length] at h
  simp at h

/-- Claim C5 (amended): for a population of positive-distance tours and
random draws in `[0, 1]`, selection draws exactly `P` individuals, but a full
step leaves the population with `2 * ceil(P / 2)` tours — which equals `P`
exactly when `P` is even (the crossover loop `range(0, P, 2)` emits two
children per iteration, so an odd `P` grows the population to `P + 1`). -/
theorem ga_step_population_counts (hyp : ℚ → ℚ → ℚ) (cities : List (ℚ × ℚ))
    (rs : Nat → ℚ) (ranges : Nat → Nat × Nat) (muts : Nat → Option (Nat × Nat))
    (s : GAState) (hP : 2 ≤ s.population_size) (hpop : s.population ≠ [])
    (hgen : s.generation < s.generations)
    (hpos : ∀ ind ∈ s.population, 0 < calculate_tour_distance hyp cities ind)
    (hr : ∀ j, rs j ≤ 1) :
    (perform_selection s.population_size
        (evaluate_population hyp cities s.population s.best_distance
          s.best_individual).1 rs).length = s.population_size ∧
      (evolve_population hyp cities rs ranges muts s).population.length =
        2 * ((s.population_size + 1) / 2) ∧
      (s.population_size % 2 = 0 →
        (evolve_population hyp cities rs ranges muts s).population.length =
          s.population_size) := by
  have hsel : (perform_selection s.population_size
      (evaluate_population hyp cities s.population s.best_distance
        s.best_individual).1 rs).length = s.population_size := by
    apply perform_selection_length
    · rw [evaluate_population_fitness]
      simpa using hpop
    · intro f hf
      rw [evaluate_population_fitness] at hf
      rcases List.mem_map.mp hf with ⟨ind, hind, rfl⟩
      exact one_div_pos.mpr (hpos ind hind)
    · exact hr
  have hev : (evolve_population hyp cities rs ranges muts s).population.length =
      2 * ((s.population_size + 1) / 2) := by
    rw [evolve_population, if_neg (by omega)]
    dsimp only
    rw [perform_mutation_length, perform_crossover_length]
  exact ⟨hsel, hev, fun heven => by rw [hev]; omega⟩

theorem ga_step_population_counts_witness :
    (perform_selection 2
        (evaluate_population (fun _ _ => 1) [((0 : ℚ), (0 : ℚ)), (1, 0)]
          [[0, 1], [1, 0]] none none).1 (fun _ => 0)).length = 2 ∧
      (evolve_population (fun _ _ => 1) [((0 : ℚ), (0 : ℚ)), (1, 0)]
        (fun _ => 0) (fun _ => (0, 0)) (fun _ => none)
        { population_size := 2, generations := 500, mutation_rate := 1 / 100,
          population := [[0, 1], [1, 0]], generation := 0,
          best_individual := none, best_distance := none }).population.length =
        2 * ((2 + 1) / 2) ∧
      (2 % 2 = 0 →
        (evolve_population (fun _ _ => 1) [((0 : ℚ), (0 : ℚ)), (1, 0)]
          (fun _ => 0) (fun _ => (0, 0)) (fun _ => none)
          { population_size := 2, generations := 500, mutation_rate := 1 / 100,
            population := [[0, 1], [1, 0]], generation := 0,
            best_individual := none, best_distance := none }).population.length
          = 2) :=
  ga_step_population_counts (fun _ _ => 1) [((0 : ℚ), (0 : ℚ)), (1, 0)]
    (fun _ => 0) (fun _ => (0, 0)) (fun _ => none)
    { population_size := 2, generations := 500, mutation_rate := 1 / 100,
      population := [[0, 1], [1, 0]], generation := 0,
      best_individual := none, best_distance := none }
    (by norm_num) (by simp) (by norm_num)
    (by
      intro ind hind
      have h2 : calculate_tour_distance (fun _ _ => 1)
          [((0 : ℚ), (0 : ℚ)), (1, 0)] ind = ind.length := by
        unfold calculate_tour_distance
        rw [foldl_add_range]
        simp [dcity]
      rw [h2]
      simp at hind
      rcases hind with h | h <;> rw [h] <;> norm_num)
    (fun _ => by norm_num)

/-! ## Particle swarm optimizer (`ParticleSwarmOptimization_TSP.py`
lines 275-341) -/

/-- One particle dictionary (lines 291-298): `position`, `velocity`,
`best_position` (initially `None`), `best_distance` (initially
`float('inf')`, modelled as `none`). -/
structure PSOParticle where
  position : List Nat
  velocity : List ℚ
  best_position : Option (List Nat)
  best_distance : Option ℚ

/-- The swarm attributes (lines 282-288) plus the loop counter of
`for iteration in range(self.max_iterations)`. -/
structure SwarmState where
  particles : List PSOParticle
  best_global_position : Option (List Nat)
  best_global_distance : Option ℚ
  iteration : Nat
  max_iterations : Nat

/-- `setup_pso_algorithm` (lines 282-299): 30 particles with shuffled
positions (`shuffle` oracle) and `random.uniform(-1, 1)` velocities (`vels`
oracle); every best starts undefined; 100 iterations — all hard-coded, no
configuration accepted, no validation performed. -/
def setup_pso_algorithm (n : Nat) (shuffle : Nat → List Nat → List Nat)
    (vels : Nat → Nat → ℚ) : SwarmState :=
  { particles := (List.range 30).map (fun i =>
      { position := shuffle i (List.range n)
        velocity := (List.range n).map (vels i)
        best_position := none
        best_distance := none })
    best_global_position := none
    best_global_distance := none
    iteration := 0
    max_iterations := 100 }

/-- Python `int(x)`: truncation toward zero. -/
def pyInt (x : ℚ) : Int := if 0 ≤ x then x.floor else x.ceil

/-- `max(0, min(new_index, len(self.cities) - 1))` (line 326), stored as a
city index. -/
def clampIndex (n : Nat) (v : Int) : Nat :=
  (max 0 (min v ((n : Int) - 1))).toNat

/-- The per-slot velocity and position update (lines 318-327): for each slot
`i` of the position, with the already-updated personal best `pb` and global
best `gbp`, the new velocity is `inertia + cognitive + social` and the new
position entry is the clamped truncation of `position[i] + velocity[i]`.
Returns (new position, new velocity). -/
def update_particle_slots (n : Nat) (r1 r2 : Nat → ℚ) (pb gbp : List Nat)
    (pos : List Nat) (vel : List ℚ) : List Nat × List ℚ :=
  let upd := (List.range pos.length).map (fun i =>
    let inertia := vel.getD i 0
    let cognitive := r1 i * ((pb.getD i 0 : ℚ) - (pos.getD i 0 : ℚ))
    let social := r2 i * ((gbp.getD i 0 : ℚ) - (pos.getD i 0 : ℚ))
    let v := inertia + cognitive + social
    (clampIndex n (pyInt ((pos.getD i 0 : ℚ) + v)), v))
  (upd.map Prod.fst, upd.map Prod.snd)

/-- The refill loop (lines 331-334):
`while len(position) < n: position.append(random.choice(missing))`, with the
`choice` oracle selecting which missing city each append picks and `fuel`
bounding the recursion (at most `n` appends are ever needed). -/
def refill_missing (n : Nat) (choice : Nat → Nat) : Nat → List Nat → List Nat
  | 0, pos => pos
  | fuel + 1, pos =>
      if pos.length < n then
        match (List.range n).filter (fun x => !decide (x ∈ pos)) with
        | [] => pos
        | m :: ms =>
            refill_missing n choice fuel
              (pos ++ [(m :: ms).getD (choice fuel % (m :: ms).length) 0])
      else pos

/-- The repair step (lines 329-334): `list(set(position))[:n]` — deduplicate
(CPython set iteration order is unspecified; one occurrence of each value is
kept, and nothing proved here depends on which) and truncate to at most `n`
entries — then refill the missing cities until the length is `n` again. -/
def repair_position (n : Nat) (choice : Nat → Nat) (pos : List Nat) :
    List Nat :=
  refill_missing n choice n (pos.dedup.take n)

/-- Processing of one particle inside an iteration (lines 304-334): evaluate
the current position, update the personal best, update the global best, then
update velocity and position per slot and repair the position.  The velocity
update reads `particle['best_position'][i]` and
`self.best_global_position[i]`; were either still `None`, Python would raise
a `TypeError` — modelled by returning `none`. -/
def process_particle (hyp : ℚ → ℚ → ℚ) (cities : List (ℚ × ℚ)) (n : Nat)
    (r1 r2 : Nat → ℚ) (choice : Nat → Nat)
    (gb : Option (List Nat) × Option ℚ) (p : PSOParticle) :
    Option (PSOParticle × (Option (List Nat) × Option ℚ)) :=
  let distance := calculate_tour_distance hyp cities p.position
  let p1 := if ltInf distance p.best_distance then
      { p with best_distance := some distance,
               best_position := some p.position }
    else p
  let gb1 := if ltInf distance gb.2 then (some p.position, some distance)
    else gb
  match p1.best_position, gb1.1 with
  | some pb, some gbp =>
      let upd := update_particle_slots n r1 r2 pb gbp p.position p.velocity
      some ({ p1 with
                position := repair_position n choice upd.1
                velocity := upd.2 },
             gb1)
  | _, _ => none

/-- The `for particle in self.particles` pass of one iteration
(lines 304-334), threading the global best through the particles in order;
`idx` numbers the particles for the oracles. -/
def swarm_pass (hyp : ℚ → ℚ → ℚ) (cities : List (ℚ × ℚ)) (n : Nat)
    (r1 r2 : Nat → Nat → ℚ) (choice : Nat → Nat → Nat) :
    List PSOParticle → Nat → (Option (List Nat) × Option ℚ) →
    Option (List PSOParticle × (Option (List Nat) × Option ℚ))
  | [], _, gb => some ([], gb)
  | p :: rest, idx, gb =>
      match process_particle hyp cities n (r1 idx) (r2 idx) (choice idx) gb p with
      | none => none
      | some pg =>
          match swarm_pass hyp cities n r1 r2 choice rest (idx + 1) pg.2 with
          | none => none
          | some psgb => some (pg.1 :: psgb.1, psgb.2)

/-- One iteration of the `for iteration in range(self.max_iterations)` loop
(lines 303-336); the oracles additionally take the iteration number. -/
def swarm_iteration (hyp : ℚ → ℚ → ℚ) (cities : List (ℚ × ℚ)) (n : Nat)
    (r1 r2 : Nat → Nat → Nat → ℚ) (choice : Nat → Nat → Nat → Nat)
    (s : SwarmState) : Option SwarmState :=
  match swarm_pass hyp cities n (r1 s.iteration) (r2 s.iteration)
      (choice s.iteration) s.particles 0
      (s.best_global_position, s.best_global_distance) with
  | none => none
  | some psgb =>
      some { s with
               particles := psgb.1
               best_global_position := psgb.2.1
               best_global_distance := psgb.2.2
               iteration := s.iteration + 1 }

/-- Fallible iteration: `none` aborts the remaining steps (a raised
exception). -/
def iterateOpt {α : Type} (f : α → Option α) : Nat → α → Option α
  | 0, s => some s
  | t + 1, s =>
      match f s with
      | none => none
      | some s1 => iterateOpt f t s1

/-- `run_pso` (lines 301-341): a single invocation runs the complete
`for iteration in range(self.max_iterations)` loop to the end — every swarm
iteration happens inside this one call. -/
def run_pso (hyp : ℚ → ℚ → ℚ) (cities : List (ℚ × ℚ)) (n : Nat)
    (r1 r2 : Nat → Nat → Nat → ℚ) (choice : Nat → Nat → Nat → Nat)
    (s : SwarmState) : Option SwarmState :=
  iterateOpt (swarm_iteration hyp cities n r1 r2 choice) s.max_iterations s

/-- A particle whose `best_distance` is set also has its `best_position`
set (they are only ever written together). -/
def BestsConsistent (p : PSOParticle) : Prop :=
  p.best_distance.isSome = true → p.best_position.isSome = true

/-- The swarm-level coupling of the `None` sentinels: every particle's bests
are consistent and the global pair is consistent. -/
def SwarmConsistent (s : SwarmState) : Prop :=
  (∀ p ∈ s.particles, BestsConsistent p) ∧
    (s.best_global_distance.isSome = true →
      s.best_global_position.isSome = true)

theorem getD_mem {l : List Nat} {i : Nat} (h : i < l.length) (d : Nat) :
    l.getD i d ∈ l := by
  rw [List.getD_eq_getElem?_getD, List.getElem?_eq_getElem h]
  exact List.getElem_mem h

theorem clampIndex_lt (n : Nat) (hn : 1 ≤ n) (v : Int) : clampIndex n v < n := by
  unfold clampIndex
  have h1 : min v ((n : Int) - 1) ≤ (n : Int) - 1 := min_le_right _ _
  have h2 : max 0 (min v ((n : Int) - 1)) ≤ (n : Int) - 1 := by
    apply max_le _ h1
    omega
  have h0 : (0 : Int) ≤ max 0 (min v ((n : Int) - 1)) := le_max_left _ _
  omega

theorem update_particle_slots_lt (n : Nat) (hn : 1 ≤ n) (r1 r2 : Nat → ℚ)
    (pb gbp pos : List Nat) (vel : List ℚ) :
    ∀ x ∈ (update_particle_slots n r1 r2 pb gbp pos vel).1, x < n := by
  intro x hx
  unfold update_particle_slots at hx
  dsimp only at hx
  rw [List.map_map] at hx
  rcases List.mem_map.mp hx with ⟨i, _, rfl⟩
  exact clampIndex_lt n hn _

theorem exists_missing (n : Nat) (pos : List Nat) (hnd : pos.Nodup)
    (hsub : ∀ x ∈ pos, x < n) (hlen : pos.length < n) :
    (List.range n).filter (fun x => !decide (x ∈ pos)) ≠ [] := by
  intro hemp
  have hall : ∀ x ∈ List.range n, x ∈ pos := by
    intro x hx
    by_contra hnx
    have hmem : x ∈ (List.range n).filter (fun x => !decide (x ∈ pos)) := by
      rw [List.mem_filter]
      exact ⟨hx, by simp [hnx]⟩
    rw [hemp] at hmem
    simp at hmem
  have hsp := List.subperm_of_subset (List.nodup_range n) hall
  have hle := hsp.length_le
  simp at hle
  omega

theorem refill_missing_perm (n : Nat) (choice : Nat → Nat) :
    ∀ (fuel : Nat) (pos : List Nat), pos.Nodup → (∀ x ∈ pos, x < n) →
      n ≤ pos.length + fuel →
      (refill_missing n choice fuel pos).Perm (List.range n) := by
  intro fuel
  induction fuel with
  | zero =>
      intro pos hnd hsub hlen
      have hsp := List.subperm_of_subset hnd
        (fun x hx => List.mem_range.mpr (hsub x hx))
      refine hsp.perm_of_length_le ?_
      simp
      omega
  | succ fuel ih =>
      intro pos hnd hsub hlen
      rw [refill_missing]
      by_cases hl : pos.length < n
      · rw [if_pos hl]
        cases hfil : (List.range n).filter (fun x => !decide (x ∈ pos)) with
        | nil => exact absurd hfil (exists_missing n pos hnd hsub hl)
        | cons m ms =>
            dsimp only
            have hxmem : (m :: ms).getD (choice fuel % (m :: ms).length) 0 ∈
                m :: ms := getD_mem (Nat.mod_lt _ (by simp)) 0
            have hxfil : (m :: ms).getD (choice fuel % (m :: ms).length) 0 ∈
                (List.range n).filter (fun x => !decide (x ∈ pos)) := by
              rw [hfil]
              exact hxmem
            rcases List.mem_filter.mp hxfil with ⟨hxr, hxnp⟩
            have hxlt := List.mem_range.mp hxr
            have hxpos : (m :: ms).getD (choice fuel % (m :: ms).length) 0 ∉
                pos := by simpa using hxnp
            apply ih
            · rw [List.nodup_append]
              refine ⟨hnd, List.nodup_singleton _, ?_⟩
              intro a ha hax
              rw [List.mem_singleton] at hax
              subst hax
              exact hxpos ha
            · intro y hy
              rcases List.mem_append.mp hy with hy | hy
              · exact hsub y hy
              · rw [List.mem_singleton] at hy
                subst hy
                exact hxlt
            · simp
              omega
      · rw [if_neg hl]
        have hsp := List.subperm_of_subset hnd
          (fun x hx => List.mem_range.mpr (hsub x hx))
        refine hsp.perm_of_length_le ?_
        simp
        omega

theorem repair_position_perm (n : Nat) (choice : Nat → Nat) (pos : List Nat)
    (hsub : ∀ x ∈ pos, x < n) :
    (repair_position n choice pos).Perm (List.range n) := by
  unfold repair_position
  apply refill_missing_perm
  · exact (List.take_sublist _ _).nodup (List.nodup_dedup pos)
  · intro x hx
    exact hsub x (List.mem_dedup.mp ((List.take_sublist _ _).subset hx))
  · have hle : (pos.dedup.take n).length ≤ n := by simp
    omega

theorem process_particle_spec (hyp : ℚ → ℚ → ℚ) (cities : List (ℚ × ℚ))
    (n : Nat) (r1 r2 : Nat → ℚ) (choice : Nat → Nat)
    (gb : Option (List Nat) × Option ℚ) (p : PSOParticle)
    (hp : BestsConsistent p)
    (hgb : gb.2.isSome = true → gb.1.isSome = true) :
    ∃ pg, process_particle hyp cities n r1 r2 choice gb p = some pg ∧
      BestsConsistent pg.1 ∧
      (pg.2.2.isSome = true → pg.2.1.isSome = true) ∧
      (1 ≤ n → pg.1.position.Perm (List.range n)) := by
  unfold process_particle
  dsimp only
  have hperm : ∀ (pb gbp : List Nat), 1 ≤ n →
      (repair_position n choice
        (update_particle_slots n r1 r2 pb gbp p.position p.velocity).1).Perm
        (List.range n) := by
    intro pb gbp hn
    exact repair_position_perm n choice _
      (update_particle_slots_lt n hn r1 r2 pb gbp p.position p.velocity)
  by_cases hpb : ltInf (calculate_tour_distance hyp cities p.position)
      p.best_distance = true
  · rw [if_pos hpb]
    by_cases hgb1 : ltInf (calculate_tour_distance hyp cities p.position)
        gb.2 = true
    · rw [if_pos hgb1]
      exact ⟨_, rfl, fun _ => rfl, fun _ => rfl, fun hn => hperm _ _ hn⟩
    · rw [if_neg hgb1]
      have hgbs : gb.2.isSome = true → ∃ gbp, gb.1 = some gbp := by
        intro h
        exact Option.isSome_iff_exists.mp (hgb h)
      cases hgd : gb.2 with
      | none => rw [hgd] at hgb1; simp [ltInf] at hgb1
      | some b =>
          rcases hgbs (by rw [hgd]; rfl) with ⟨gbp, hgbp⟩
          rw [hgbp]
          exact ⟨_, rfl, fun _ => rfl, fun _ => by rw [hgbp]; rfl,
            fun hn => hperm _ _ hn⟩
  · rw [if_neg hpb]
    have hbd : ∃ b, p.best_distance = some b := by
      cases hbd : p.best_distance with
      | none => rw [hbd] at hpb; simp [ltInf] at hpb
      | some b => exact ⟨b, rfl⟩
    rcases hbd with ⟨b, hb⟩
    rcases Option.isSome_iff_exists.mp (hp (by rw [hb]; rfl)) with ⟨pb, hpbeq⟩
    rw [hpbeq]
    by_cases hgb1 : ltInf (calculate_tour_distance hyp cities p.position)
        gb.2 = true
    · rw [if_pos hgb1]
      exact ⟨_, rfl, fun _ => rfl, fun _ => rfl, fun hn => hperm _ _ hn⟩
    · rw [if_neg hgb1]
      cases hgd : gb.2 with
      | none => rw [hgd] at hgb1; simp [ltInf] at hgb1
      | some c =>
          rcases Option.isSome_iff_exists.mp (hgb (by rw [hgd]; rfl)) with
            ⟨gbp, hgbp⟩
          rw [hgbp]
          exact ⟨_, rfl, fun _ => rfl, fun _ => by rw [hgbp]; rfl,
            fun hn => hperm _ _ hn⟩

theorem swarm_pass_spec (hyp : ℚ → ℚ → ℚ) (cities : List (ℚ × ℚ)) (n : Nat)
    (r1 r2 : Nat → Nat → ℚ) (choice : Nat → Nat → Nat) :
    ∀ (ps : List PSOParticle) (idx : Nat)
      (gb : Option (List Nat) × Option ℚ),
      (∀ p ∈ ps, BestsConsistent p) →
      (gb.2.isSome = true → gb.1.isSome = true) →
      ∃ res, swarm_pass hyp cities n r1 r2 choice ps idx gb = some res ∧
        (∀ p ∈ res.1, BestsConsistent p) ∧
        (res.2.2.isSome = true → res.2.1.isSome = true) ∧
        (1 ≤ n → ∀ p ∈ res.1, p.position.Perm (List.range n)) := by
  intro ps
  induction ps with
  | nil =>
      intro idx gb hps hgb
      exact ⟨([], gb), rfl, by simp, hgb, by simp⟩
  | cons p rest ih =>
      intro idx gb hps hgb
      rcases process_particle_spec hyp cities n (r1 idx) (r2 idx) (choice idx)
          gb p (hps p (List.mem_cons_self p rest)) hgb with ⟨pg, hpg, h1, h2, h3⟩
      rcases ih (idx + 1) pg.2
          (fun q hq => hps q (List.mem_cons_of_mem _ hq)) h2 with
        ⟨res, hres, hr1, hr2, hr3⟩
      refine ⟨(pg.1 :: res.1, res.2), ?_, ?_, hr2, ?_⟩
      · rw [swarm_pass, hpg]
        dsimp only
        rw [hres]
      · intro q hq
        rcases List.mem_cons.mp hq with hq | hq
        · subst hq; exact h1
        · exact hr1 q hq
      · intro hn q hq
        rcases List.mem_cons.mp hq with hq | hq
        · subst hq; exact h3 hn
        · exact hr3 hn q hq

theorem swarm_iteration_spec (hyp : ℚ → ℚ → ℚ) (cities : List (ℚ × ℚ))
    (n : Nat) (r1 r2 : Nat → Nat → Nat → ℚ) (choice : Nat → Nat → Nat → Nat)
    (s : SwarmState) (hc : SwarmConsistent s) :
    ∃ s', swarm_iteration hyp cities n r1 r2 choice s = some s' ∧
      SwarmConsistent s' ∧ s'.iteration = s.iteration + 1 ∧
      s'.max_iterations = s.max_iterations ∧
      (1 ≤ n → ∀ p ∈ s'.particles, p.position.Perm (List.range n)) := by
  rcases swarm_pass_spec hyp cities n (r1 s.iteration) (r2 s.iteration)
      (choice s.iteration) s.particles 0
      (s.best_global_position, s.best_global_distance) hc.1 hc.2 with
    ⟨res, hres, h1, h2, h3⟩
  refine ⟨{ s with
              particles := res.1
              best_global_position := res.2.1
              best_global_distance := res.2.2
              iteration := s.iteration + 1 }, ?_, ⟨h1, h2⟩, rfl, rfl, h3⟩
  rw [swarm_iteration, hres]

theorem iterate_swarm_spec (hyp : ℚ → ℚ → ℚ) (cities : List (ℚ × ℚ))
    (n : Nat) (r1 r2 : Nat → Nat → Nat → ℚ) (choice : Nat → Nat → Nat → Nat) :
    ∀ (t : Nat) (s : SwarmState), SwarmConsistent s →
      ∃ s', iterateOpt (swarm_iteration hyp cities n r1 r2 choice) t s =
          some s' ∧
        SwarmConsistent s' ∧ s'.iteration = s.iteration + t ∧
        s'.max_iterations = s.max_iterations ∧
        (1 ≤ n → 1 ≤ t → ∀ p ∈ s'.particles,
          p.position.Perm (List.range n)) := by
  intro t
  induction t with
  | zero =>
      intro s hc
      exact ⟨s, rfl, hc, rfl, rfl, by omega⟩
  | succ t ih =>
      intro s hc
      rcases swarm_iteration_spec hyp cities n r1 r2 choice s hc with
        ⟨s1, hs1, hc1, hit1, hmax1, hperm1⟩
      rcases ih s1 hc1 with ⟨s', hs', hc', hit', hmax', hperm'⟩
      refine ⟨s', ?_, hc', by omega, by omega, ?_⟩
      · rw [iterateOpt, hs1]
        exact hs'
      · intro hn _
        rcases Nat.eq_zero_or_pos t with ht | ht
        · subst ht
          have heq : s' = s1 := by
            rw [iterateOpt] at hs'
            exact (Option.some_injective _ hs').symm
          rw [heq]
          exact hperm1 hn
        · exact hperm' hn ht

/-- Claim C10: in the particle swarm loop the velocity update never reads an
uninitialized best.  Starting from the state built by `setup_pso_algorithm`
(where every `best_position` and the global best are `None`), each particle's
evaluation — a comparison against the `float('inf')` sentinel — sets its
personal best, and the first evaluation of the run sets the global best,
before any velocity update reads them; so the reads of `best_position` and
`best_global_position` are never `None` in any iteration, for all oracles:
the whole run completes without the modelled `TypeError` (`none`). -/
theorem pso_bests_never_read_none (hyp : ℚ → ℚ → ℚ) (cities : List (ℚ × ℚ))
    (n : Nat) (shuffle : Nat → List Nat → List Nat) (vels : Nat → Nat → ℚ)
    (r1 r2 : Nat → Nat → Nat → ℚ) (choice : Nat → Nat → Nat → Nat) :
    (run_pso hyp cities n r1 r2 choice
      (setup_pso_algorithm n shuffle vels)).isSome = true := by
  have hc : SwarmConsistent (setup_pso_algorithm n shuffle vels) := by
    constructor
    · intro p hp
      rcases List.mem_map.mp hp with ⟨i, _, rfl⟩
      intro h
      simp at h
    · intro h
      simp [setup_pso_algorithm] at h
  rcases iterate_swarm_spec hyp cities n r1 r2 choice
      (setup_pso_algorithm n shuffle vels).max_iterations
      (setup_pso_algorithm n shuffle vels) hc with ⟨s', hs', _⟩
  rw [run_pso, hs']
  rfl

/-- Claim C3: after the repair step of any iteration, every particle's
position is a valid permutation of the `n` city indices (`n ≥ 1`) — after
any positive number of swarm iterations from any consistent state, every
particle's position (the value the last repair stored) is a permutation of
`0..n-1`, for all oracles. -/
theorem pso_positions_valid_after_repair (hyp : ℚ → ℚ → ℚ)
    (cities : List (ℚ × ℚ)) (n : Nat) (r1 r2 : Nat → Nat → Nat → ℚ)
    (choice : Nat → Nat → Nat → Nat) (hn : 1 ≤ n) (t : Nat)
    (s s' : SwarmState) (hc : SwarmConsistent s)
    (hrun : iterateOpt (swarm_iteration hyp cities n r1 r2 choice) (t + 1) s =
      some s') :
    ∀ p ∈ s'.particles, p.position.Perm (List.range n) := by
  rcases iterate_swarm_spec hyp cities n r1 r2 choice (t + 1) s hc with
    ⟨s'', hs'', _, _, _, hperm⟩
  have heq : s'' = s' := Option.some_injective _ (hs''.symm.trans hrun)
  subst heq
  exact hperm hn (by omega)

theorem pso_positions_valid_after_repair_witness :
    ∃ s', iterateOpt (swarm_iteration (fun _ _ => 0) [((0 : ℚ), (0 : ℚ))] 1
        (fun _ _ _ => 0) (fun _ _ _ => 0) (fun _ _ _ => 0)) 1
        ⟨[⟨[0], [0], none, none⟩], none, none, 0, 1⟩ = some s' ∧
      ∀ p ∈ s'.particles, p.position.Perm (List.range 1) := by
  have hc : SwarmConsistent ⟨[⟨[0], [0], none, none⟩], none, none, 0, 1⟩ := by
    constructor
    · intro p hp
      rw [List.mem_singleton] at hp
      subst hp
      intro h
      simp at h
    · intro h
      simp at h
  rcases iterate_swarm_spec (fun _ _ => 0) [((0 : ℚ), (0 : ℚ))] 1
      (fun _ _ _ => 0) (fun _ _ _ => 0) (fun _ _ _ => 0) 1 _ hc with
    ⟨s', hs', _⟩
  exact ⟨s', hs',
    pso_positions_valid_after_repair (fun _ _ => 0) [((0 : ℚ), (0 : ℚ))] 1
      (fun _ _ _ => 0) (fun _ _ _ => 0) (fun _ _ _ => 0) (by decide) 0 _ s'
      hc hs'⟩

/-- Counterexample to claim C6: the PSO entry point does not perform one
swarm iteration per invocation — a single call of `run_pso` on a state with
`max_iterations = 2` completes both swarm iterations (the iteration counter
ends at 2, not 1) before returning control. -/
theorem run_pso_single_call_runs_all_iterations :
    ∃ sp', run_pso (fun _ _ => 0) [((0 : ℚ), (0 : ℚ))] 1 (fun _ _ _ => 0)
        (fun _ _ _ => 0) (fun _ _ _ => 0)
        ⟨[⟨[0], [0], none, none⟩], none, none, 0, 2⟩ = some sp' ∧
      sp'.iteration = 2 ∧ ¬ sp'.iteration = 1 := by
  have hc : SwarmConsistent ⟨[⟨[0], [0], none, none⟩], none, none, 0, 2⟩ := by
    constructor
    · intro p hp
      rw [List.mem_singleton] at hp
      subst hp
      intro h
      simp at h
    · intro h
      simp at h
  rcases iterate_swarm_spec (fun _ _ => 0) [((0 : ℚ), (0 : ℚ))] 1
      (fun _ _ _ => 0) (fun _ _ _ => 0) (fun _ _ _ => 0) 2 _ hc with
    ⟨sp', hsp', _, hit, _, _⟩
  have hit2 : sp'.iteration = 2 := by simpa using hit
  exact ⟨sp', hsp', hit2, by omega⟩

/-- Claim C6 (amended): one invocation of the 2-opt step performs exactly one
candidate evaluation when not terminal (none when terminal), one invocation
of the genetic step advances exactly one generation when not terminal, but
one invocation of `run_pso` performs all `max_iterations` swarm iterations
before returning — the PSO loop is not steppable one iteration at a time. -/
theorem step_work_units (hyp : ℚ → ℚ → ℚ) (cities : List (ℚ × ℚ))
    (s2 : TwoOptState) (rs : Nat → ℚ) (ranges : Nat → Nat × Nat)
    (muts : Nat → Option (Nat × Nat)) (sg : GAState) (n : Nat)
    (r1 r2 : Nat → Nat → Nat → ℚ) (choice : Nat → Nat → Nat → Nat)
    (sp : SwarmState) (hgen : sg.generation < sg.generations)
    (hc : SwarmConsistent sp) :
    (perform_two_opt_optimization hyp cities s2).2 =
      (if twoOptTerminal s2 = true then 0 else 1) ∧
      (evolve_population hyp cities rs ranges muts sg).generation =
        sg.generation + 1 ∧
      ∃ sp', run_pso hyp cities n r1 r2 choice sp = some sp' ∧
        sp'.iteration = sp.iteration + sp.max_iterations := by
  refine ⟨?_, ?_, ?_⟩
  · unfold perform_two_opt_optimization twoOptTerminal
    dsimp only
    by_cases hterm : s2.tour.length - 1 ≤ s2.iteration_i
    · rw [if_pos hterm]
      simp [hterm]
    · rw [if_neg hterm]
      have hr : (if decide (s2.tour.length - 1 ≤ s2.iteration_i) = true
          then (0 : Nat) else 1) = 1 := by simp [hterm]
      rw [hr]
      split
      · rfl
      · split <;> rfl
  · rw [evolve_population, if_neg (by omega)]
  · rcases iterate_swarm_spec hyp cities n r1 r2 choice sp.max_iterations sp
        hc with ⟨sp', hsp', _, hit, _, _⟩
    exact ⟨sp', hsp', hit⟩

theorem step_work_units_witness :
    (perform_two_opt_optimization (fun _ _ => 0) [] ⟨[], 0, 1, 2⟩).2 =
      (if twoOptTerminal ⟨[], 0, 1, 2⟩ = true then 0 else 1) ∧
      (evolve_population (fun _ _ => 0) [] (fun _ => 0) (fun _ => (0, 0))
        (fun _ => none)
        { population_size := 2, generations := 500, mutation_rate := 1 / 100,
          population := [], generation := 0, best_individual := none,
          best_distance := none }).generation = 0 + 1 ∧
      ∃ sp', run_pso (fun _ _ => 0) [] 1 (fun _ _ _ => 0) (fun _ _ _ => 0)
          (fun _ _ _ => 0) ⟨[], none, none, 0, 2⟩ = some sp' ∧
        sp'.iteration = 0 + 2 :=
  step_work_units (fun _ _ => 0) [] ⟨[], 0, 1, 2⟩ (fun _ => 0)
    (fun _ => (0, 0)) (fun _ => none)
    { population_size := 2, generations := 500, mutation_rate := 1 / 100,
      population := [], generation := 0, best_individual := none,
      best_distance := none }
    1 (fun _ _ _ => 0) (fun _ _ _ => 0) (fun _ _ _ => 0)
    ⟨[], none, none, 0, 2⟩ (by norm_num)
    (by
      constructor
      · intro p hp
        simp at hp
      · intro h
        simp at h)

/-- Counterexample to claim C7: the optimizers accept no configuration and
validate nothing — `setup_genetic_algorithm` unconditionally succeeds with
the hard-coded `population_size = 100` (so no construction "with
populationSize 1" exists, and nothing ever fails with `InvalidConfig`), and
`setup_pso_algorithm` unconditionally succeeds with 30 particles and 100
iterations. -/
theorem setup_accepts_no_config :
    (setup_genetic_algorithm 5 (fun _ l => l)).population_size = 100 ∧
      (setup_genetic_algorithm 5 (fun _ l => l)).generations = 500 ∧
      (setup_genetic_algorithm 5 (fun _ l => l)).mutation_rate = 1 / 100 ∧
      (setup_pso_algorithm 5 (fun _ l => l) (fun _ _ => 0)).max_iterations =
        100 ∧
      (setup_pso_algorithm 5 (fun _ l => l) (fun _ _ => 0)).particles.length =
        30 := by
  refine ⟨rfl, rfl, rfl, rfl, ?_⟩
  simp [setup_pso_algorithm]

/-- Claim C7 (amended): no configuration is accepted and no `InvalidConfig`
check exists; instead the setup functions unconditionally create optimizer
state whose hard-coded parameters happen to satisfy all the ranges the spec
states (`population_size = 100 ≥ 2`, `generations = 500 ≥ 1`,
`mutation_rate = 0.01 ∈ [0, 1]`, `30` particles `≥ 1`, `100` iterations
`≥ 1`), for every city count and every random oracle. -/
theorem setup_parameters_hard_coded_in_range (n : Nat)
    (shuffle : Nat → List Nat → List Nat) (vels : Nat → Nat → ℚ) :
    2 ≤ (setup_genetic_algorithm n shuffle).population_size ∧
      1 ≤ (setup_genetic_algorithm n shuffle).generations ∧
      0 ≤ (setup_genetic_algorithm n shuffle).mutation_rate ∧
      (setup_genetic_algorithm n shuffle).mutation_rate ≤ 1 ∧
      1 ≤ (setup_pso_algorithm n shuffle vels).particles.length ∧
      1 ≤ (setup_pso_algorithm n shuffle vels).max_iterations := by
  refine ⟨by norm_num [setup_genetic_algorithm],
    by norm_num [setup_genetic_algorithm],
    by norm_num [setup_genetic_algorithm],
    by norm_num [setup_genetic_algorithm], ?_,
    by norm_num [setup_pso_algorithm]⟩
  simp [setup_pso_algorithm]

/-! ## Subset-sum solver (`subset_sum.py` lines 7-52) -/

/-- The dynamic-programming table of `SubsetSumSolver`
(`_initialize_dp_table` and `_populate_dp_table`, `subset_sum.py` lines
29-42), expressed as the recurrence the fill loops implement:
`dp_table items i j` is the entry `dp_table[i][j]` — `dp_table[i][0] = True`,
`dp_table[0][j] = False` for `j ≥ 1`, and row `i ≥ 1` is built from row
`i - 1` with and without `items[i - 1]`. -/
def dp_table (items : List Nat) : Nat → Nat → Bool
  | 0, 0 => true
  | 0, _ + 1 => false
  | _ + 1, 0 => true
  | i + 1, j + 1 =>
      if j + 1 < items.getD i 0 then dp_table items i (j + 1)
      else dp_table items i (j + 1) || dp_table items i (j + 1 - items.getD i 0)

/-- `_find_solution_items` (lines 44-52) before the final reversal: walk `i`
from `len(items)` down to `0` while the remainder `j` is positive; take
`items[i - 1]` exactly when `dp_table[i][j]` holds but `dp_table[i - 1][j]`
does not, subtracting it from the remainder. -/
def find_solution_items (items : List Nat) : Nat → Nat → List Nat
  | 0, _ => []
  | _ + 1, 0 => []
  | i + 1, j + 1 =>
      if dp_table items (i + 1) (j + 1) && !dp_table items i (j + 1) then
        items.getD i 0 :: find_solution_items items i (j + 1 - items.getD i 0)
      else find_solution_items items i (j + 1)

/-- `solve` (lines 22-27): `None` when `dp_table[len(items)][target]` is
false, otherwise the reconstructed subset, reversed into scan order
(`solution_items[::-1]`). -/
def solve (items : List Nat) (target : Nat) : Option (List Nat) :=
  if dp_table items items.length target then
    some (find_solution_items items items.length target).reverse
  else none

theorem take_succ_getD (items : List Nat) (i : Nat) (hi : i < items.length) :
    items.take (i + 1) = items.take i ++ [items.getD i 0] := by
  rw [List.take_succ, List.getElem?_eq_getElem hi,
    List.getD_eq_getElem?_getD, List.getElem?_eq_getElem hi]
  rfl

theorem sublist_concat_iff {l xs : List Nat} {x : Nat} :
    l.Sublist (xs ++ [x]) ↔
      l.Sublist xs ∨ ∃ m, l = m ++ [x] ∧ m.Sublist xs := by
  rw [List.sublist_append_iff]
  constructor
  · rintro ⟨l₁, l₂, rfl, h1, h2⟩
    rcases List.sublist_singleton.mp h2 with rfl | rfl
    · left
      simpa using h1
    · right
      exact ⟨l₁, rfl, h1⟩
  · rintro (h | ⟨m, rfl, hm⟩)
    · exact ⟨l, [], by simp, h, List.nil_sublist _⟩
    · exact ⟨m, [x], rfl, hm, List.Sublist.refl _⟩

theorem dp_table_iff (items : List Nat) :
    ∀ i, i ≤ items.length → ∀ j,
      (dp_table items i j = true ↔
        ∃ l : List Nat, l.Sublist (items.take i) ∧ l.sum = j) := by
  intro i
  induction i with
  | zero =>
      intro _ j
      cases j with
      | zero =>
          simp only [dp_table, List.take_zero]
          constructor
          · intro _
            exact ⟨[], List.nil_sublist _, rfl⟩
          · intro _
            trivial
      | succ j =>
          simp only [dp_table, List.take_zero]
          constructor
          · intro h
            exact absurd h (by simp)
          · rintro ⟨l, hl, hsum⟩
            rcases List.sublist_nil.mp hl with rfl
            simp at hsum
  | succ i ih =>
      intro hi j
      have hii : i ≤ items.length := by omega
      have hilt : i < items.length := by omega
      have htake := take_succ_getD items i hilt
      cases j with
      | zero =>
          simp only [dp_table]
          constructor
          · intro _
            exact ⟨[], List.nil_sublist _, rfl⟩
          · intro _
            trivial
      | succ j =>
          rw [dp_table]
          by_cases hlt : j + 1 < items.getD i 0
          · rw [if_pos hlt, ih hii (j + 1)]
            constructor
            · rintro ⟨l, hl, hsum⟩
              refine ⟨l, ?_, hsum⟩
              rw [htake]
              exact hl.trans (List.sublist_append_left _ _)
            · rintro ⟨l, hl, hsum⟩
              rw [htake] at hl
              rcases sublist_concat_iff.mp hl with hl | ⟨m, rfl, hm⟩
              · exact ⟨l, hl, hsum⟩
              · rw [List.sum_append, List.sum_cons, List.sum_nil] at hsum
                omega
          · rw [if_neg hlt]
            rw [Bool.or_eq_true, ih hii (j + 1), ih hii (j + 1 - items.getD i 0)]
            constructor
            · rintro (⟨l, hl, hsum⟩ | ⟨l, hl, hsum⟩)
              · refine ⟨l, ?_, hsum⟩
                rw [htake]
                exact hl.trans (List.sublist_append_left _ _)
              · refine ⟨l ++ [items.getD i 0], ?_, ?_⟩
                · rw [htake]
                  exact hl.append (List.Sublist.refl _)
                · rw [List.sum_append, List.sum_cons, List.sum_nil]
                  omega
            · rintro ⟨l, hl, hsum⟩
              rw [htake] at hl
              rcases sublist_concat_iff.mp hl with hl | ⟨m, rfl, hm⟩
              · exact Or.inl ⟨l, hl, hsum⟩
              · refine Or.inr ⟨m, hm, ?_⟩
                rw [List.sum_append, List.sum_cons, List.sum_nil] at hsum
                omega

theorem find_solution_spec (items : List Nat) :
    ∀ i, i ≤ items.length → ∀ j,
      dp_table items i j = true →
      (find_solution_items items i j).sum = j ∧
        (find_solution_items items i j).reverse.Sublist (items.take i) := by
  intro i
  induction i with
  | zero =>
      intro _ j hdp
      cases j with
      | zero => simp [find_solution_items]
      | succ j => simp [dp_table] at hdp
  | succ i ih =>
      intro hi j hdp
      have hii : i ≤ items.length := by omega
      have hilt : i < items.length := by omega
      have htake := take_succ_getD items i hilt
      cases j with
      | zero => simp [find_solution_items]
      | succ j =>
          rw [find_solution_items]
          by_cases hcond : (dp_table items (i + 1) (j + 1) &&
              !dp_table items i (j + 1)) = true
          · rw [if_pos hcond]
            simp only [Bool.and_eq_true] at hcond
            rcases hcond with ⟨_, hnot⟩
            have hprev : dp_table items i (j + 1) = false := by
              cases h : dp_table items i (j + 1)
              · rfl
              · rw [h] at hnot
                simp at hnot
            rw [dp_table] at hdp
            by_cases hlt : j + 1 < items.getD i 0
            · rw [if_pos hlt] at hdp
              rw [hdp] at hprev
              simp at hprev
            · rw [if_neg hlt, Bool.or_eq_true, hprev] at hdp
              rcases hdp with hfalse | hdp
              · simp at hfalse
              rcases ih hii (j + 1 - items.getD i 0) hdp with ⟨hsum, hsub⟩
              constructor
              · rw [List.sum_cons, hsum]
                omega
              · rw [List.reverse_cons, htake]
                exact hsub.append (List.Sublist.refl _)
          · rw [if_neg hcond]
            have hprev : dp_table items i (j + 1) = true := by
              cases h : dp_table items i (j + 1)
              · rw [hdp, h] at hcond
                simp at hcond
              · rfl
            rcases ih hii (j + 1) hprev with ⟨hsum, hsub⟩
            refine ⟨hsum, ?_⟩
            rw [htake]
            exact hsub.trans (List.sublist_append_left _ _)

/-- Claim C9: for positive `items` and any target, `solve` returns a subset
of `items` summing to the target exactly when one exists, and `None` when
none does (`SubsetSumSolver.solve`, the DP fill and the walk-back
reconstruction together). -/
theorem subset_sum_solve_correct (items : List Nat) (target : Nat)
    (hpos : ∀ x ∈ items, 0 < x) :
    ((∃ l : List Nat, l.Sublist items ∧ l.sum = target) →
      ∃ l : List Nat, solve items target = some l ∧ l.Sublist items ∧
        l.sum = target) ∧
      ((¬ ∃ l : List Nat, l.Sublist items ∧ l.sum = target) →
        solve items target = none) := by
  constructor
  · intro hex
    have hdp : dp_table items items.length target = true := by
      rw [dp_table_iff items items.length le_rfl target]
      simpa [List.take_length] using hex
    rcases find_solution_spec items items.length le_rfl target hdp with
      ⟨hsum, hsub⟩
    refine ⟨(find_solution_items items items.length target).reverse, ?_, ?_, ?_⟩
    · rw [solve, if_pos hdp]
    · simpa [List.take_length] using hsub
    · rw [List.sum_reverse]
      exact hsum
  · intro hnex
    have hdp : ¬ dp_table items items.length target = true := by
      rw [dp_table_iff items items.length le_rfl target]
      simpa [List.take_length] using hnex
    rw [solve, if_neg hdp]

theorem subset_sum_solve_correct_witness :
    (∃ l : List Nat, solve [3, 4, 5, 6] 9 = some l ∧ l.Sublist [3, 4, 5, 6] ∧
        l.sum = 9) ∧
      solve [3, 4, 5, 6] 100 = none :=
  ⟨(subset_sum_solve_correct [3, 4, 5, 6] 9 (by decide)).1
      ⟨[4, 5], by decide, by decide⟩,
    (subset_sum_solve_correct [3, 4, 5, 6] 100 (by decide)).2
      (by
        rintro ⟨l, hsub, hsum⟩
        have hall : ∀ m ∈ [3, 4, 5, 6].sublists, m.sum ≠ 100 := by decide
        exact hall l (List.mem_sublists.mpr hsub) hsum)⟩

end Biomimicry
